import Mathlib

/-!
Verification of the Portfolio Ledger and Analytics engine of the
IndiaQuant repository (`src/utils/portfolio.py`,
`src/utils/performance_metrics.py`, `src/utils/stock_data.py`).

The Python classes are shallowly embedded: a Python `dict` keyed by ticker
becomes an association list with Python-dict update semantics (updating an
existing key keeps its place, a new key is appended at the end), numeric
values become `ℚ`, dates stay strings, and the external environment
(market-data fetches, wall-clock time, random number generators) is passed
in explicitly as function parameters.
-/

namespace IndiaQuant

/-- One entry of a holdings dict, mirroring the dict literal built in
`Portfolio.add_position` (`src/utils/portfolio.py`): shares held, blended
average purchase price, date of first purchase, and the asset type tag. -/
structure Position where
  shares : ℚ
  avg_price : ℚ
  purchase_date : String
  asset_type : String
deriving DecidableEq, Repr

/-- One entry of `Portfolio.transactions`, mirroring the dict appended by
`add_position` / `remove_position`. -/
structure Transaction where
  ticker : String
  action : String
  shares : ℚ
  price : ℚ
  date : String
  asset_type : String
deriving DecidableEq, Repr

/-- A Python dict from ticker to position, embedded as an association list
in insertion order. -/
abbrev Holdings := List (String × Position)

/-- Dict lookup: `holdings_dict[ticker]`, `None` when the key is absent
(`ticker in holdings_dict` is `isSome`). -/
def findPos : Holdings → String → Option Position
  | [], _ => none
  | (k, v) :: rest, t => if k = t then some v else findPos rest t

/-- Dict assignment `holdings_dict[ticker] = value`: an existing key is
overwritten in place, a fresh key is appended at the end, exactly the
insertion-order semantics of a Python dict. -/
def setPos : Holdings → String → Position → Holdings
  | [], t, v => [(t, v)]
  | (k, v') :: rest, t, v =>
      if k = t then (k, v) :: rest else (k, v') :: setPos rest t v

/-- Dict deletion `del holdings_dict[ticker]`. -/
def erasePos : Holdings → String → Holdings
  | [], _ => []
  | (k, v) :: rest, t => if k = t then rest else (k, v) :: erasePos rest t

/-- The `Portfolio` object: stock holdings, mutual-fund holdings, and the
append-only transaction log (`Portfolio.__init__`). -/
structure Portfolio where
  holdings : Holdings
  mutual_funds : Holdings
  transactions : List Transaction
deriving DecidableEq, Repr

/-- `Portfolio()` — the empty portfolio. -/
def Portfolio.empty : Portfolio := ⟨[], [], []⟩

/-- The line `holdings_dict = self.mutual_funds if asset_type == 'mutual_fund'
else self.holdings` shared by `add_position` and `remove_position`. -/
def Portfolio.dictFor (p : Portfolio) (asset_type : String) : Holdings :=
  if asset_type = "mutual_fund" then p.mutual_funds else p.holdings

/-- Write the chosen dict back into the portfolio together with the new
transaction log, the counterpart of `dictFor` for the mutated state. -/
def Portfolio.withDict (p : Portfolio) (asset_type : String) (d : Holdings)
    (txs : List Transaction) : Portfolio :=
  if asset_type = "mutual_fund" then ⟨p.holdings, d, txs⟩ else ⟨d, p.mutual_funds, txs⟩

/-- `Portfolio.add_position` (`src/utils/portfolio.py` lines 13-58): on an
existing ticker the position is re-averaged
(`avg = (existing_cost + new_cost) / total_shares`) and the original
purchase date kept; on a fresh ticker a new position is created; a `buy`
transaction is always appended. -/
def Portfolio.add_position (p : Portfolio) (ticker : String) (shares purchase_price : ℚ)
    (purchase_date : String) (asset_type : String) : Portfolio :=
  let d := p.dictFor asset_type
  let d' :=
    match findPos d ticker with
    | some pos =>
        let existing_shares := pos.shares
        let existing_cost := pos.shares * pos.avg_price
        let new_cost := shares * purchase_price
        let total_shares := existing_shares + shares
        let avg := (existing_cost + new_cost) / total_shares
        setPos d ticker ⟨total_shares, avg, pos.purchase_date, asset_type⟩
    | none => setPos d ticker ⟨shares, purchase_price, purchase_date, asset_type⟩
  let tx : Transaction := ⟨ticker, "buy", shares, purchase_price, purchase_date, asset_type⟩
  p.withDict asset_type d' (p.transactions ++ [tx])

/-- `Portfolio.remove_position` (`src/utils/portfolio.py` lines 60-100):
returns `False` leaving the object untouched when the ticker is unknown or
the requested quantity exceeds the held quantity; otherwise decrements the
share count in place (all other fields untouched), deletes the entry if the
remainder is `<= 0`, appends a `sell` transaction and returns `True`. -/
def Portfolio.remove_position (p : Portfolio) (ticker : String) (shares sell_price : ℚ)
    (sell_date : String) (asset_type : String) : Bool × Portfolio :=
  let d := p.dictFor asset_type
  match findPos d ticker with
  | none => (false, p)
  | some pos =>
      if pos.shares < shares then (false, p)
      else
        let remaining := pos.shares - shares
        let d' :=
          if remaining ≤ 0 then erasePos d ticker
          else setPos d ticker ⟨remaining, pos.avg_price, pos.purchase_date, pos.asset_type⟩
        let tx : Transaction := ⟨ticker, "sell", shares, sell_price, sell_date, asset_type⟩
        (true, p.withDict asset_type d' (p.transactions ++ [tx]))

/-- Portfolio of Scenario A's first step: 10 shares bought at 100. -/
def p1 : Portfolio := Portfolio.empty.add_position "RELIANCE.NS" 10 100 "2022-01-15" "stock"

/-- Portfolio with a 20-unit position at average price 110 (Scenarios B/C):
10 shares bought at 100, then 10 more at 120. -/
def p2 : Portfolio :=
  (Portfolio.empty.add_position "TCS.NS" 10 100 "2022-01-15" "stock").add_position
    "TCS.NS" 10 120 "2022-02-10" "stock"

/-- One buy order of a fixed instrument: quantity, price and date, the
arguments handed to `Portfolio.add_position`. -/
structure Buy where
  qty : ℚ
  price : ℚ
  date : String
deriving DecidableEq, Repr

/-- Replay a sequence of buy orders of one instrument through
`Portfolio.add_position`, in order. -/
def applyBuys (t : String) (bs : List Buy) (p : Portfolio) : Portfolio :=
  bs.foldl (fun acc b => acc.add_position t b.qty b.price b.date "stock") p

/-- Minimum of a list of rationals (0 on the empty list; only ever applied
to non-empty lists of buy prices). -/
def minListQ : List ℚ → ℚ
  | [] => 0
  | x :: xs => xs.foldl min x

/-- Maximum of a list of rationals (0 on the empty list). -/
def maxListQ : List ℚ → ℚ
  | [] => 0
  | x :: xs => xs.foldl max x

/-- One row of the per-position valuation list built by
`Portfolio.get_portfolio_value` (`src/utils/portfolio.py` lines 150-230).
The mutual-fund rows of the source name their fields `units` / `avg_nav` /
`current_nav`, but carry exactly the same computed quantities. -/
structure PositionValuation where
  ticker : String
  shares : ℚ
  avg_price : ℚ
  current_price : ℚ
  cost_basis : ℚ
  current_value : ℚ
  gain_loss : ℚ
  gain_loss_pct : ℚ
  asset_type : String
deriving DecidableEq, Repr

/-- The valuation arithmetic applied to each position that has a quote:
`cost_basis = shares*avg_price`, `current_value = shares*current_price`,
`gain_loss = current_value - cost_basis`, and
`gain_loss_pct = gain_loss/cost_basis*100 if cost_basis > 0 else 0`. -/
def valuePosition (t : String) (pos : Position) (price : ℚ) (aty : String) :
    PositionValuation :=
  let cost_basis := pos.shares * pos.avg_price
  let current_value := pos.shares * price
  let gain_loss := current_value - cost_basis
  ⟨t, pos.shares, pos.avg_price, price, cost_basis, current_value, gain_loss,
    if 0 < cost_basis then gain_loss / cost_basis * 100 else 0, aty⟩

/-- The dict returned by `Portfolio.get_portfolio_value`. -/
structure ValuationSnapshot where
  positions : List PositionValuation
  mutual_fund_positions : List PositionValuation
  total_value : ℚ
  total_cost : ℚ
  total_gain_loss : ℚ
  total_gain_loss_pct : ℚ
deriving DecidableEq, Repr

/-- `Portfolio.get_portfolio_value` (`src/utils/portfolio.py` lines 138-246).
The external environment is passed explicitly: `quote t` is the closing
price `get_stock_data(t, period='1d')` yields (`none` when the fetch fails
or is empty, in which case the stock position is silently skipped), and
`navOf c pos` is the simulated current NAV of fund `c` — a value
`avg_price * (1 + daily_return) ** days_held` depending on the wall clock
and a seeded RNG, hence a parameter here (`none` models the `except` path
that skips the fund). Totals are accumulated exactly over the included
rows. -/
def get_portfolio_value (quote : String → Option ℚ) (navOf : String → Position → Option ℚ)
    (p : Portfolio) : ValuationSnapshot :=
  let positions := p.holdings.filterMap fun e =>
    (quote e.1).map fun pr => valuePosition e.1 e.2 pr "stock"
  let mf := p.mutual_funds.filterMap fun e =>
    (navOf e.1 e.2).map fun nav => valuePosition e.1 e.2 nav "mutual_fund"
  let total_value := ((positions ++ mf).map PositionValuation.current_value).sum
  let total_cost := ((positions ++ mf).map PositionValuation.cost_basis).sum
  ⟨positions, mf, total_value, total_cost, total_value - total_cost,
    if 0 < total_cost then (total_value - total_cost) / total_cost * 100 else 0⟩

/-- The per-position and aggregate formulas of spec §4.2, stated of a
snapshot: used to compare `get_portfolio_value` against the spec's words. -/
def valuationFormulasHold (v : ValuationSnapshot) : Prop :=
  (∀ pv ∈ v.positions ++ v.mutual_fund_positions,
    pv.cost_basis = pv.shares * pv.avg_price ∧
    pv.current_value = pv.shares * pv.current_price ∧
    pv.gain_loss = pv.current_value - pv.cost_basis ∧
    pv.gain_loss_pct = (if pv.cost_basis = 0 then 0 else pv.gain_loss / pv.cost_basis * 100)) ∧
  v.total_value = ((v.positions ++ v.mutual_fund_positions).map
    PositionValuation.current_value).sum ∧
  v.total_cost = ((v.positions ++ v.mutual_fund_positions).map
    PositionValuation.cost_basis).sum ∧
  v.total_gain_loss = v.total_value - v.total_cost ∧
  v.total_gain_loss_pct =
    (if v.total_cost = 0 then 0 else v.total_gain_loss / v.total_cost * 100)

/-- Quote table used to exercise `get_portfolio_value` on a concrete
portfolio (one ticker quoted, every other fetch failing). -/
def quoteW : String → Option ℚ := fun t => if t = "TCS.NS" then some 4000 else none

/-- Concrete simulated-NAV table for the same exercise. -/
def navW : String → Position → Option ℚ :=
  fun c pos => if c = "INF179K01BB8" then some (pos.avg_price + 10) else none

/-- Portfolio with two stocks (only one of which has a quote) and one
mutual fund. -/
def p5 : Portfolio :=
  ((Portfolio.empty.add_position "TCS.NS" 8 3500 "2022-02-10" "stock").add_position
    "HDFCBANK.NS" 10 1500 "2022-04-20" "stock").add_position
    "INF179K01BB8" 500 85 "2022-02-05" "mutual_fund"

/-- The dict returned by `calculate_performance_metrics`
(`src/utils/performance_metrics.py` lines 152-209). -/
structure PerformanceMetrics where
  total_return : ℚ
  annualized_return : ℚ
  volatility : ℚ
  sharpe_ratio : ℚ
  sortino_ratio : ℚ
  max_drawdown : ℚ
  alpha : ℚ
  beta : ℚ
  information_ratio : ℚ
deriving DecidableEq, Repr

/-- The all-zero dict returned on degenerate input (lines 164-175). -/
def zeroPerformance : PerformanceMetrics := ⟨0, 0, 0, 0, 0, 0, 0, 0, 0⟩

/-- The dict returned by `calculate_risk_metrics` (lines 211-272). -/
structure RiskMetrics where
  daily_var_95 : ℚ
  daily_var_99 : ℚ
  monthly_var_95 : ℚ
  monthly_var_99 : ℚ
  downside_deviation : ℚ
  monthly_volatility : ℚ
  correlation_to_market : ℚ
deriving DecidableEq, Repr

/-- The all-zero dict returned on degenerate input (lines 222-231). -/
def zeroRisk : RiskMetrics := ⟨0, 0, 0, 0, 0, 0, 0⟩

/-- Number of observations of an optional return series: `None` counts as
0, mirroring `returns is None or len(returns) < k`. -/
def optLength : Option (List ℚ) → ℕ
  | none => 0
  | some l => l.length

/-- `calculate_performance_metrics` (`src/utils/performance_metrics.py`
lines 152-209). The guard is translated from source; the non-degenerate
branch computes floating-point statistics (standard deviations, square
roots, fractional powers) and is therefore abstracted as the parameter
`body` — the claims checked here concern only the guard. -/
def calculate_performance_metrics
    (body : List ℚ → Option (List ℚ) → ℚ → PerformanceMetrics)
    (returns : Option (List ℚ)) (benchmark : Option (List ℚ)) (risk_free_rate : ℚ) :
    PerformanceMetrics :=
  match returns with
  | none => zeroPerformance
  | some r => if r.length < 2 then zeroPerformance else body r benchmark risk_free_rate

/-- `calculate_risk_metrics` (`src/utils/performance_metrics.py` lines
211-272): all-zero struct on fewer than 30 observations, otherwise the
statistical body, abstracted as `body` for the same reason as above. -/
def calculate_risk_metrics (body : List ℚ → Option (List ℚ) → RiskMetrics)
    (portfolio_returns : Option (List ℚ)) (benchmark : Option (List ℚ)) : RiskMetrics :=
  match portfolio_returns with
  | none => zeroRisk
  | some r => if r.length < 30 then zeroRisk else body r benchmark

/-- Running products with an accumulator, the recursion behind pandas
`Series.cumprod`. -/
def cumprodAux (acc : ℚ) : List ℚ → List ℚ
  | [] => []
  | x :: xs => (acc * x) :: cumprodAux (acc * x) xs

/-- pandas `Series.cumprod`: entry `i` is the product of entries `0..i`. -/
def cumprod (l : List ℚ) : List ℚ := cumprodAux 1 l

/-- The builder's cumulative-return column (`src/utils/portfolio.py` line
357): `(1 + portfolio_df['Portfolio_Daily_Return']).cumprod() - 1`,
applied to the daily-return column it just computed. -/
def portfolioCumulativeReturn (daily : List ℚ) : List ℚ :=
  (cumprod (daily.map fun r => 1 + r)).map fun x => x - 1

/-- Python-dict accumulation `sector_data[sector] += weight` with creation
on first sight (`src/utils/performance_metrics.py` lines 305-308). -/
def bump : List (String × ℚ) → String → ℚ → List (String × ℚ)
  | [], k, w => [(k, w)]
  | (k', w') :: rest, k, w =>
      if k' = k then (k', w' + w) :: rest else (k', w') :: bump rest k w

/-- Value stored under a key in the accumulator dict, 0 when absent. -/
def lookupW : List (String × ℚ) → String → ℚ
  | [], _ => 0
  | (k', w) :: rest, k => if k' = k then w else lookupW rest k

/-- The accumulation loop of `calculate_sector_allocation`: one `bump` per
position with the sector label of its ticker and weight
`current_value / total_value`. -/
def sectorAccum (sectorOf : String → String) (total : ℚ)
    (ps : List PositionValuation) (sd : List (String × ℚ)) : List (String × ℚ) :=
  ps.foldl (fun acc pos => bump acc (sectorOf pos.ticker) (pos.current_value / total)) sd

/-- `calculate_sector_allocation` (`src/utils/performance_metrics.py` lines
274-317): given the snapshot's stock-position list and the external
instrument→sector lookup (`get_stock_info(ticker)['sector']`), returns the
sector labels in first-appearance order and the matching percentage
weights. -/
def calculate_sector_allocation (sectorOf : String → String)
    (positions : List PositionValuation) : List String × List ℚ :=
  if positions = [] then ([], [])
  else
    let total_value := (positions.map PositionValuation.current_value).sum
    let sd := sectorAccum sectorOf total_value positions []
    (sd.map Prod.fst, sd.map fun e => e.2 * 100)

/-- `Portfolio.get_portfolio_returns` (`src/utils/portfolio.py` lines
248-359): the guard `if not self.holdings: return None` is translated from
source; everything after it (market-data fetches, the mutual-fund
simulation, date alignment and the weighted sum) is abstracted as `body`,
which returns the `Portfolio_Daily_Return` column, or `none` for the
later `if not stock_data: return None` exit. -/
def get_portfolio_returns (body : Portfolio → String → Option (List ℚ))
    (p : Portfolio) (period : String) : Option (List ℚ) :=
  if p.holdings = [] then none else body p period

/-- The dict returned by `Portfolio.calculate_portfolio_metrics`. -/
structure PortfolioMetrics where
  annualized_return : ℚ
  volatility : ℚ
  sharpe_ratio : ℚ
  max_drawdown : ℚ
deriving DecidableEq, Repr

/-- `Portfolio.calculate_portfolio_metrics` (`src/utils/portfolio.py`
lines 361-405): all-zero metrics when `get_portfolio_returns` yields
`None` or an empty frame, otherwise the statistical body (abstracted as
`mbody`, it computes floating-point annualization and drawdowns). -/
def calculate_portfolio_metrics (body : Portfolio → String → Option (List ℚ))
    (mbody : List ℚ → PortfolioMetrics) (p : Portfolio) (period : String) :
    PortfolioMetrics :=
  match get_portfolio_returns body p period with
  | none => ⟨0, 0, 0, 0⟩
  | some df => if df = [] then ⟨0, 0, 0, 0⟩ else mbody df

/-- A mutual-fund-only portfolio: `holdings` empty, one fund held. -/
def pFundOnly : Portfolio :=
  Portfolio.empty.add_position "INF179K01BB8" 500 85 "2022-02-05" "mutual_fund"

/-- State of the two RNGs involved in the mutual-fund simulation of
`get_portfolio_returns` (`src/utils/portfolio.py` lines 291-303):
`pySeed` is the state of the stdlib `random` module, which
`random.seed(hash(fund_code))` resets; `npPos` is the position of NumPy's
global generator, which `np.random.normal` consumes and which
`random.seed` does NOT touch. -/
structure RngWorld where
  pySeed : ℤ
  npPos : ℕ
deriving DecidableEq, Repr

/-- The per-fund simulation step of `get_portfolio_returns`:
`random.seed(hash(fund_code))` (updating only `pySeed`) followed by
`daily_returns = np.random.normal(mean, std, n)`, which reads the next
`n` variates of the NumPy stream `npNormal` and advances `npPos` by `n`.
`hashOf` stands for Python's `hash`. -/
def simulate_fund_returns (npNormal : ℕ → ℚ) (hashOf : String → ℤ) (w : RngWorld)
    (fund_code : String) (n : ℕ) : List ℚ × RngWorld :=
  let w1 : RngWorld := ⟨hashOf fund_code, w.npPos⟩
  ((List.range n).map fun i => npNormal (w1.npPos + i), ⟨w1.pySeed, w1.npPos + n⟩)

/-- A non-degenerate stand-in body returning a recognisably non-zero
struct, used to instantiate the abstracted statistics branch. -/
def pbody42 : List ℚ → Option (List ℚ) → ℚ → PerformanceMetrics :=
  fun _ _ _ => ⟨42, 42, 42, 42, 42, 42, 42, 42, 42⟩

/-- Non-degenerate stand-in body for the risk-metrics branch. -/
def rbody42 : List ℚ → Option (List ℚ) → RiskMetrics := fun _ _ => ⟨42, 42, 42, 42, 42, 42, 42⟩

/-- Stand-in for the post-guard pipeline of `get_portfolio_returns`,
returning a one-row daily-return column. -/
def bodyW : Portfolio → String → Option (List ℚ) := fun _ _ => some [1/100]

/-- Non-zero stand-in for the statistics branch of
`calculate_portfolio_metrics`. -/
def mbodyW : List ℚ → PortfolioMetrics := fun _ => ⟨7, 7, 7, 7⟩

/-- Concrete instrument→sector lookup used to exercise
`calculate_sector_allocation`. -/
def sectorOfW : String → String := fun t => if t = "RELIANCE.NS" then "Energy" else "IT"

/-- Three valued stock positions, two of which share the sector `IT`
under `sectorOfW`; total current value 1000. -/
def posListW : List PositionValuation :=
  [⟨"TCS.NS", 1, 100, 300, 100, 300, 200, 200, "stock"⟩,
   ⟨"RELIANCE.NS", 1, 100, 500, 100, 500, 400, 400, "stock"⟩,
   ⟨"INFY.NS", 1, 100, 200, 100, 200, 100, 100, "stock"⟩]

theorem findPos_setPos_self (d : Holdings) (t : String) (v : Position) :
    findPos (setPos d t v) t = some v := by
  induction d with
  | nil => simp [setPos, findPos]
  | cons e rest ih =>
      by_cases h : e.1 = t
      · simp [setPos, findPos, h]
      · simp [setPos, findPos, h, ih]

theorem findPos_setPos_ne (d : Holdings) (t t' : String) (v : Position) (h : t ≠ t') :
    findPos (setPos d t v) t' = findPos d t' := by
  induction d with
  | nil => simp [setPos, findPos, h]
  | cons e rest ih =>
      by_cases he : e.1 = t
      · simp [setPos, findPos, he, h]
      · simp [setPos, findPos, he, ih]

theorem dictFor_withDict (p : Portfolio) (aty : String) (d : Holdings)
    (txs : List Transaction) : (p.withDict aty d txs).dictFor aty = d := by
  by_cases h : aty = "mutual_fund" <;> simp [Portfolio.withDict, Portfolio.dictFor, h]

theorem dictFor_stock (p : Portfolio) : p.dictFor "stock" = p.holdings := by
  simp [Portfolio.dictFor]

theorem holdings_withDict_stock (p : Portfolio) (d : Holdings) (txs : List Transaction) :
    (p.withDict "stock" d txs).holdings = d := by
  simp [Portfolio.withDict]

theorem findPos_add_position_old (p : Portfolio) (t dt : String) (q pr : ℚ)
    (pos : Position) (hfind : findPos p.holdings t = some pos) :
    findPos ((p.add_position t q pr dt "stock").holdings) t =
      some ⟨pos.shares + q, (pos.shares * pos.avg_price + q * pr) / (pos.shares + q),
        pos.purchase_date, "stock"⟩ := by
  have hd : p.dictFor "stock" = p.holdings := dictFor_stock p
  simp only [Portfolio.add_position, hd, hfind, holdings_withDict_stock]
  exact findPos_setPos_self p.holdings t _

theorem findPos_add_position_new (p : Portfolio) (t dt : String) (q pr : ℚ)
    (hfind : findPos p.holdings t = none) :
    findPos ((p.add_position t q pr dt "stock").holdings) t = some ⟨q, pr, dt, "stock"⟩ := by
  have hd : p.dictFor "stock" = p.holdings := dictFor_stock p
  simp only [Portfolio.add_position, hd, hfind, holdings_withDict_stock]
  exact findPos_setPos_self p.holdings t _

/-- C1: buying into an existing position accumulates the quantity, blends
the average price by `(old_qty*old_avg + quantity*price) / (old_qty+quantity)`,
and keeps the originally recorded purchase date. -/
theorem add_position_existing (p : Portfolio) (t dt : String) (q pr : ℚ) (pos : Position)
    (hfind : findPos p.holdings t = some pos)
    (hq : 0 < q) (hpr : 0 < pr) (hS : 0 ≤ pos.shares) :
    ∃ pos', findPos ((p.add_position t q pr dt "stock").holdings) t = some pos' ∧
      pos'.shares = pos.shares + q ∧
      pos'.avg_price = (pos.shares * pos.avg_price + q * pr) / (pos.shares + q) ∧
      pos'.purchase_date = pos.purchase_date :=
  ⟨⟨pos.shares + q, (pos.shares * pos.avg_price + q * pr) / (pos.shares + q),
    pos.purchase_date, "stock"⟩, findPos_add_position_old p t dt q pr pos hfind,
    rfl, rfl, rfl⟩

theorem add_position_existing_witness :
    ∃ pos', findPos ((p1.add_position "RELIANCE.NS" 10 120 "2022-02-10" "stock").holdings)
        "RELIANCE.NS" = some pos' ∧
      pos'.shares = 20 ∧ pos'.avg_price = 110 ∧ pos'.purchase_date = "2022-01-15" := by
  obtain ⟨pos', h1, h2, h3, h4⟩ :=
    add_position_existing p1 "RELIANCE.NS" "2022-02-10" 10 120
      ⟨10, 100, "2022-01-15", "stock"⟩
      (by norm_num [p1, Portfolio.empty, Portfolio.add_position, Portfolio.dictFor,
        Portfolio.withDict, findPos, setPos])
      (by norm_num) (by norm_num) (by norm_num)
  refine ⟨pos', h1, ?_, ?_, h4⟩
  · rw [h2]; norm_num
  · rw [h3]; norm_num

/-- C2: a sell of an unknown instrument, or of more shares than are held,
returns `False` and leaves the whole portfolio object unchanged (no position
mutated or deleted, no transaction appended). -/
theorem remove_position_invalid (p : Portfolio) (t : String) (q spr : ℚ) (sd aty : String)
    (h : findPos (p.dictFor aty) t = none ∨
      ∃ pos, findPos (p.dictFor aty) t = some pos ∧ pos.shares < q) :
    p.remove_position t q spr sd aty = (false, p) := by
  rcases h with h | ⟨pos, hf, hlt⟩
  · simp [Portfolio.remove_position, h]
  · simp [Portfolio.remove_position, hf, hlt]

theorem remove_position_invalid_witness :
    p2.remove_position "TCS.NS" 25 130 "2022-03-01" "stock" = (false, p2) ∧
    findPos p2.holdings "TCS.NS" = some ⟨20, 110, "2022-01-15", "stock"⟩ :=
  ⟨remove_position_invalid p2 "TCS.NS" 25 130 "2022-03-01" "stock"
    (Or.inr ⟨⟨20, 110, "2022-01-15", "stock"⟩,
      by norm_num [p2, Portfolio.empty, Portfolio.add_position, Portfolio.dictFor,
        Portfolio.withDict, findPos, setPos], by norm_num⟩),
    by norm_num [p2, Portfolio.empty, Portfolio.add_position, Portfolio.dictFor,
      Portfolio.withDict, findPos, setPos]⟩

/-- C3: a valid partial sell (`0 < quantity sold < held quantity`) succeeds,
decrements the share count by the sold amount, and leaves the average price
(and the purchase date and asset tag) exactly as they were, whatever the
sell price. -/
theorem remove_position_valid (p : Portfolio) (t : String) (q spr : ℚ) (sd aty : String)
    (pos : Position) (hfind : findPos (p.dictFor aty) t = some pos)
    (h0 : 0 < q) (hlt : q < pos.shares) :
    (p.remove_position t q spr sd aty).1 = true ∧
    findPos (((p.remove_position t q spr sd aty).2).dictFor aty) t =
      some ⟨pos.shares - q, pos.avg_price, pos.purchase_date, pos.asset_type⟩ := by
  have hnot : ¬ pos.shares < q := not_lt.mpr (le_of_lt hlt)
  have hrem : ¬ pos.shares - q ≤ 0 := not_le.mpr (by linarith)
  constructor
  · simp [Portfolio.remove_position, hfind, hnot]
  · simp only [Portfolio.remove_position, hfind, if_neg hnot, if_neg hrem,
      dictFor_withDict]
    exact findPos_setPos_self _ t _

theorem remove_position_valid_witness :
    (p2.remove_position "TCS.NS" 10 150 "2022-03-01" "stock").1 = true ∧
    findPos (((p2.remove_position "TCS.NS" 10 150 "2022-03-01" "stock").2).dictFor "stock")
      "TCS.NS" = some ⟨10, 110, "2022-01-15", "stock"⟩ := by
  obtain ⟨ha, hb⟩ :=
    remove_position_valid p2 "TCS.NS" 10 150 "2022-03-01" "stock"
      ⟨20, 110, "2022-01-15", "stock"⟩
      (by norm_num [p2, Portfolio.empty, Portfolio.add_position, Portfolio.dictFor,
        Portfolio.withDict, findPos, setPos])
      (by norm_num) (by norm_num)
  refine ⟨ha, ?_⟩
  rw [hb]; norm_num

theorem foldl_min_le_init (xs : List ℚ) (a : ℚ) : xs.foldl min a ≤ a := by
  induction xs generalizing a with
  | nil => exact le_refl a
  | cons x xs ih => exact le_trans (ih (min a x)) (min_le_left a x)

theorem foldl_min_le_mem (xs : List ℚ) (a y : ℚ) (h : y ∈ xs) : xs.foldl min a ≤ y := by
  induction xs generalizing a with
  | nil => cases h
  | cons x xs ih =>
      rcases List.mem_cons.mp h with rfl | h
      · exact le_trans (foldl_min_le_init xs (min a y)) (min_le_right a y)
      · exact ih (min a x) h

theorem minListQ_le (l : List ℚ) (y : ℚ) (h : y ∈ l) : minListQ l ≤ y := by
  cases l with
  | nil => cases h
  | cons x xs =>
      rcases List.mem_cons.mp h with rfl | h
      · exact foldl_min_le_init xs y
      · exact foldl_min_le_mem xs x y h

theorem init_le_foldl_max (xs : List ℚ) (a : ℚ) : a ≤ xs.foldl max a := by
  induction xs generalizing a with
  | nil => exact le_refl a
  | cons x xs ih => exact le_trans (le_max_left a x) (ih (max a x))

theorem mem_le_foldl_max (xs : List ℚ) (a y : ℚ) (h : y ∈ xs) : y ≤ xs.foldl max a := by
  induction xs generalizing a with
  | nil => cases h
  | cons x xs ih =>
      rcases List.mem_cons.mp h with rfl | h
      · exact le_trans (le_max_right a y) (init_le_foldl_max xs (max a y))
      · exact ih (max a x) h

theorem le_maxListQ (l : List ℚ) (y : ℚ) (h : y ∈ l) : y ≤ maxListQ l := by
  cases l with
  | nil => cases h
  | cons x xs =>
      rcases List.mem_cons.mp h with rfl | h
      · exact init_le_foldl_max xs y
      · exact mem_le_foldl_max xs x y h

theorem applyBuys_avg_bounded_aux (t : String) (bs : List Buy) (lo hi : ℚ)
    (hb : ∀ b ∈ bs, 0 < b.qty ∧ lo ≤ b.price ∧ b.price ≤ hi) :
    ∀ (p : Portfolio) (pos : Position),
      findPos p.holdings t = some pos → 0 < pos.shares →
      lo ≤ pos.avg_price → pos.avg_price ≤ hi →
      ∃ pos', findPos (applyBuys t bs p).holdings t = some pos' ∧ 0 < pos'.shares ∧
        lo ≤ pos'.avg_price ∧ pos'.avg_price ≤ hi := by
  induction bs with
  | nil => exact fun p pos h hS hlo hhi => ⟨pos, h, hS, hlo, hhi⟩
  | cons b rest ih =>
      intro p pos h hS hlo hhi
      obtain ⟨hbq, hblo, hbhi⟩ := hb b (List.mem_cons_self b rest)
      have hfind' := findPos_add_position_old p t b.date b.qty b.price pos h
      have hSq : (0:ℚ) < pos.shares + b.qty := by linarith
      have havlo : lo ≤ (pos.shares * pos.avg_price + b.qty * b.price) / (pos.shares + b.qty) := by
        rw [le_div_iff hSq]
        nlinarith [mul_nonneg (sub_nonneg.mpr hlo) (le_of_lt hS),
          mul_nonneg (sub_nonneg.mpr hblo) (le_of_lt hbq)]
      have havhi : (pos.shares * pos.avg_price + b.qty * b.price) / (pos.shares + b.qty) ≤ hi := by
        rw [div_le_iff hSq]
        nlinarith [mul_nonneg (sub_nonneg.mpr hhi) (le_of_lt hS),
          mul_nonneg (sub_nonneg.mpr hbhi) (le_of_lt hbq)]
      have hstep : applyBuys t (b :: rest) p =
          applyBuys t rest (p.add_position t b.qty b.price b.date "stock") := rfl
      rw [hstep]
      exact ih (fun b' hb' => hb b' (List.mem_cons_of_mem b hb'))
        (p.add_position t b.qty b.price b.date "stock")
        ⟨pos.shares + b.qty, (pos.shares * pos.avg_price + b.qty * b.price) / (pos.shares + b.qty),
          pos.purchase_date, "stock"⟩ hfind' hSq havlo havhi

/-- C4: after any non-empty sequence of buys of a single instrument (each
with positive quantity and price) starting from the empty portfolio, the
resulting position's average price lies between the minimum and the maximum
of the buy prices. -/
theorem buys_avg_price_in_range (t : String) (b0 : Buy) (rest : List Buy)
    (hpos : ∀ b ∈ b0 :: rest, 0 < b.qty ∧ 0 < b.price) :
    ∃ pos, findPos (applyBuys t (b0 :: rest) Portfolio.empty).holdings t = some pos ∧
      minListQ ((b0 :: rest).map Buy.price) ≤ pos.avg_price ∧
      pos.avg_price ≤ maxListQ ((b0 :: rest).map Buy.price) := by
  have hq0 := (hpos b0 (List.mem_cons_self b0 rest)).1
  have hfirst : findPos ((Portfolio.empty.add_position t b0.qty b0.price b0.date
      "stock").holdings) t = some ⟨b0.qty, b0.price, b0.date, "stock"⟩ :=
    findPos_add_position_new Portfolio.empty t b0.date b0.qty b0.price rfl
  have hmem0 : b0.price ∈ (b0 :: rest).map Buy.price :=
    List.mem_map_of_mem Buy.price (List.mem_cons_self b0 rest)
  have hstep : applyBuys t (b0 :: rest) Portfolio.empty =
      applyBuys t rest (Portfolio.empty.add_position t b0.qty b0.price b0.date "stock") := rfl
  obtain ⟨pos, hfind, _, hlo, hhi⟩ :=
    applyBuys_avg_bounded_aux t rest (minListQ ((b0 :: rest).map Buy.price))
      (maxListQ ((b0 :: rest).map Buy.price))
      (fun b hb => ⟨(hpos b (List.mem_cons_of_mem b0 hb)).1,
        minListQ_le _ _ (List.mem_map_of_mem Buy.price (List.mem_cons_of_mem b0 hb)),
        le_maxListQ _ _ (List.mem_map_of_mem Buy.price (List.mem_cons_of_mem b0 hb))⟩)
      (Portfolio.empty.add_position t b0.qty b0.price b0.date "stock")
      ⟨b0.qty, b0.price, b0.date, "stock"⟩ hfirst hq0
      (minListQ_le _ _ hmem0) (le_maxListQ _ _ hmem0)
  exact ⟨pos, by rw [hstep]; exact hfind, hlo, hhi⟩

theorem buys_avg_price_in_range_witness :
    (∀ b ∈ [(⟨10, 100, "2022-01-15"⟩ : Buy), ⟨10, 120, "2022-02-10"⟩, ⟨20, 90, "2022-03-05"⟩],
      0 < b.qty ∧ 0 < b.price) ∧
    ∃ pos, findPos (applyBuys "INFY.NS"
        [(⟨10, 100, "2022-01-15"⟩ : Buy), ⟨10, 120, "2022-02-10"⟩, ⟨20, 90, "2022-03-05"⟩]
        Portfolio.empty).holdings "INFY.NS" = some pos ∧
      minListQ ([(⟨10, 100, "2022-01-15"⟩ : Buy), ⟨10, 120, "2022-02-10"⟩,
        ⟨20, 90, "2022-03-05"⟩].map Buy.price) ≤ pos.avg_price ∧
      pos.avg_price ≤ maxListQ ([(⟨10, 100, "2022-01-15"⟩ : Buy), ⟨10, 120, "2022-02-10"⟩,
        ⟨20, 90, "2022-03-05"⟩].map Buy.price) := by
  have hb : ∀ b ∈ [(⟨10, 100, "2022-01-15"⟩ : Buy), ⟨10, 120, "2022-02-10"⟩,
      ⟨20, 90, "2022-03-05"⟩], 0 < b.qty ∧ 0 < b.price := by
    intro b hb
    fin_cases hb <;> exact ⟨by norm_num, by norm_num⟩
  exact ⟨hb, buys_avg_price_in_range "INFY.NS" ⟨10, 100, "2022-01-15"⟩
    [⟨10, 120, "2022-02-10"⟩, ⟨20, 90, "2022-03-05"⟩] hb⟩

theorem pct_branch (cb x : ℚ) (h : 0 ≤ cb) :
    (if 0 < cb then x else 0) = (if cb = 0 then 0 else x) := by
  by_cases hz : cb = 0
  · simp [hz]
  · rw [if_pos (lt_of_le_of_ne h (Ne.symm hz)), if_neg hz]

theorem snapshot_positions_eq (quote : String → Option ℚ)
    (navOf : String → Position → Option ℚ) (p : Portfolio) :
    (get_portfolio_value quote navOf p).positions =
      p.holdings.filterMap (fun e =>
        (quote e.1).map fun pr => valuePosition e.1 e.2 pr "stock") := rfl

theorem snapshot_mf_eq (quote : String → Option ℚ)
    (navOf : String → Position → Option ℚ) (p : Portfolio) :
    (get_portfolio_value quote navOf p).mutual_fund_positions =
      p.mutual_funds.filterMap (fun e =>
        (navOf e.1 e.2).map fun nav => valuePosition e.1 e.2 nav "mutual_fund") := rfl

theorem mem_snapshot (quote : String → Option ℚ) (navOf : String → Position → Option ℚ)
    (p : Portfolio) (pv : PositionValuation)
    (h : pv ∈ (get_portfolio_value quote navOf p).positions ++
      (get_portfolio_value quote navOf p).mutual_fund_positions) :
    ∃ e, e ∈ p.holdings ++ p.mutual_funds ∧ ∃ pr aty, pv = valuePosition e.1 e.2 pr aty := by
  rcases List.mem_append.mp h with h | h
  · rw [snapshot_positions_eq] at h
    obtain ⟨e, he, hmap⟩ := List.mem_filterMap.mp h
    obtain ⟨pr, _, hval⟩ := Option.map_eq_some'.mp hmap
    exact ⟨e, List.mem_append.mpr (Or.inl he), pr, "stock", hval.symm⟩
  · rw [snapshot_mf_eq] at h
    obtain ⟨e, he, hmap⟩ := List.mem_filterMap.mp h
    obtain ⟨nav, _, hval⟩ := Option.map_eq_some'.mp hmap
    exact ⟨e, List.mem_append.mpr (Or.inr he), nav, "mutual_fund", hval.symm⟩

/-- C5: on every position that has a quote, `get_portfolio_value` computes
`cost_basis = quantity*avg_price`, `current_value = quantity*current_price`,
`gain_loss = current_value - cost_basis` and
`gain_loss_pct = gain_loss/cost_basis*100` (0 when the cost basis is 0),
and its aggregates are the sums of the included rows, with
`total_gain_loss_pct = total_gain_loss/total_cost*100` (0 when
`total_cost` is 0). -/
theorem get_portfolio_value_spec (quote : String → Option ℚ)
    (navOf : String → Position → Option ℚ) (p : Portfolio)
    (hnn : ∀ e ∈ p.holdings ++ p.mutual_funds, 0 ≤ e.2.shares ∧ 0 ≤ e.2.avg_price) :
    valuationFormulasHold (get_portfolio_value quote navOf p) := by
  refine ⟨?_, rfl, rfl, rfl, ?_⟩
  · intro pv hpv
    obtain ⟨e, he, pr, aty, rfl⟩ := mem_snapshot quote navOf p pv hpv
    refine ⟨rfl, rfl, rfl, ?_⟩
    have hcb : 0 ≤ e.2.shares * e.2.avg_price :=
      mul_nonneg (hnn e he).1 (hnn e he).2
    exact pct_branch _ _ hcb
  · have h0 : 0 ≤ (get_portfolio_value quote navOf p).total_cost := by
      have : (get_portfolio_value quote navOf p).total_cost =
          (((get_portfolio_value quote navOf p).positions ++
            (get_portfolio_value quote navOf p).mutual_fund_positions).map
            PositionValuation.cost_basis).sum := rfl
      rw [this]
      apply List.sum_nonneg
      intro x hx
      obtain ⟨pv, hpv, rfl⟩ := List.mem_map.mp hx
      obtain ⟨e, he, pr, aty, rfl⟩ := mem_snapshot quote navOf p pv hpv
      exact mul_nonneg (hnn e he).1 (hnn e he).2
    exact pct_branch _ _ h0

theorem get_portfolio_value_spec_witness :
    valuationFormulasHold (get_portfolio_value quoteW navW p5) := by
  refine get_portfolio_value_spec quoteW navW p5 ?_
  intro e he
  have h5 : p5.holdings ++ p5.mutual_funds =
      [("TCS.NS", ⟨8, 3500, "2022-02-10", "stock"⟩),
       ("HDFCBANK.NS", ⟨10, 1500, "2022-04-20", "stock"⟩),
       ("INF179K01BB8", ⟨500, 85, "2022-02-05", "mutual_fund"⟩)] := by decide
  rw [h5] at he
  simp only [List.mem_cons, List.not_mem_nil, or_false] at he
  rcases he with rfl | rfl | rfl <;> exact ⟨by norm_num, by norm_num⟩

/-- C6: on fewer than 2 observations (`None` included)
`calculate_performance_metrics` returns the struct whose nine fields are
all 0, and on fewer than 30 observations `calculate_risk_metrics` returns
the struct whose seven fields are all 0 — whatever the statistics bodies
would compute. -/
theorem degenerate_metrics_zero
    (pbody : List ℚ → Option (List ℚ) → ℚ → PerformanceMetrics)
    (rbody : List ℚ → Option (List ℚ) → RiskMetrics)
    (returns pr : Option (List ℚ)) (bench1 bench2 : Option (List ℚ)) (rf : ℚ)
    (h2 : optLength returns < 2) (h30 : optLength pr < 30) :
    calculate_performance_metrics pbody returns bench1 rf = ⟨0, 0, 0, 0, 0, 0, 0, 0, 0⟩ ∧
    calculate_risk_metrics rbody pr bench2 = ⟨0, 0, 0, 0, 0, 0, 0⟩ := by
  constructor
  · cases returns with
    | none => rfl
    | some r =>
        have hr : r.length < 2 := h2
        simp [calculate_performance_metrics, hr, zeroPerformance]
  · cases pr with
    | none => rfl
    | some r =>
        have hr : r.length < 30 := h30
        simp [calculate_risk_metrics, hr, zeroRisk]

theorem degenerate_metrics_zero_witness :
    optLength (some [(1:ℚ)/100]) < 2 ∧ optLength (some [(3:ℚ)/200]) < 30 ∧
    calculate_performance_metrics pbody42 (some [(1:ℚ)/100]) none (1/50) =
      ⟨0, 0, 0, 0, 0, 0, 0, 0, 0⟩ ∧
    calculate_risk_metrics rbody42 (some [(3:ℚ)/200]) none = ⟨0, 0, 0, 0, 0, 0, 0⟩ := by
  obtain ⟨hp, hr⟩ :=
    degenerate_metrics_zero pbody42 rbody42 (some [(1:ℚ)/100]) (some [(3:ℚ)/200])
      none none (1/50) (by norm_num [optLength]) (by norm_num [optLength])
  exact ⟨by norm_num [optLength], by norm_num [optLength], hp, hr⟩

theorem cumprodAux_eq_map_range (l : List ℚ) :
    ∀ acc : ℚ, cumprodAux acc l =
      (List.range l.length).map fun t => acc * (l.take (t + 1)).prod := by
  induction l with
  | nil => intro acc; simp [cumprodAux]
  | cons x xs ih =>
      intro acc
      rw [show cumprodAux acc (x :: xs) = (acc * x) :: cumprodAux (acc * x) xs from rfl,
        ih (acc * x), List.length_cons, List.range_succ_eq_map, List.map_cons, List.map_map]
      congr 1
      · simp
      · apply List.map_congr_left
        intro t _
        simp [List.take_succ_cons, mul_assoc]

/-- C7: the builder's cumulative-return column reproduces, at every index
`t`, the product `Π_{s≤t}(1 + r_s) - 1` over its own daily-return column. -/
theorem cumulative_return_round_trip (daily : List ℚ) :
    portfolioCumulativeReturn daily =
      (List.range daily.length).map
        fun t => ((daily.take (t + 1)).map fun r => 1 + r).prod - 1 := by
  rw [show portfolioCumulativeReturn daily =
      (cumprodAux 1 (daily.map fun r => 1 + r)).map (fun x => x - 1) from rfl,
    cumprodAux_eq_map_range, List.map_map, List.length_map]
  apply List.map_congr_left
  intro t _
  simp [List.map_take]

theorem lookupW_bump_self (sd : List (String × ℚ)) (k : String) (w : ℚ) :
    lookupW (bump sd k w) k = lookupW sd k + w := by
  induction sd with
  | nil => simp [bump, lookupW]
  | cons a rest ih =>
      obtain ⟨k', w'⟩ := a
      by_cases h : k' = k
      · simp [bump, lookupW, h]
      · simp [bump, lookupW, h, ih]

theorem lookupW_bump_ne (sd : List (String × ℚ)) (k k' : String) (w : ℚ) (h : k ≠ k') :
    lookupW (bump sd k w) k' = lookupW sd k' := by
  induction sd with
  | nil => simp [bump, lookupW, h]
  | cons a rest ih =>
      obtain ⟨k0, w0⟩ := a
      by_cases h0 : k0 = k
      · subst h0; simp [bump, lookupW, h]
      · simp [bump, lookupW, h0, ih]

theorem snd_sum_bump (sd : List (String × ℚ)) (k : String) (w : ℚ) :
    ((bump sd k w).map Prod.snd).sum = (sd.map Prod.snd).sum + w := by
  induction sd with
  | nil => simp [bump]
  | cons a rest ih =>
      obtain ⟨k', w'⟩ := a
      by_cases h : k' = k
      · simp [bump, h]; ring
      · simp [bump, h, ih]; ring

theorem bump_keys (sd : List (String × ℚ)) (k : String) (w : ℚ) :
    (bump sd k w).map Prod.fst =
      if k ∈ sd.map Prod.fst then sd.map Prod.fst else sd.map Prod.fst ++ [k] := by
  induction sd with
  | nil => simp [bump]
  | cons a rest ih =>
      obtain ⟨k', w'⟩ := a
      by_cases h : k' = k
      · subst h; simp [bump]
      · have hkk : ¬ (k = k') := fun hh => h hh.symm
        by_cases hm : k ∈ rest.map Prod.fst
        · simp [bump, h, ih, hm, List.mem_cons, hkk]
        · simp [bump, h, ih, hm, List.mem_cons, hkk]

theorem bump_nodup (sd : List (String × ℚ)) (k : String) (w : ℚ)
    (h : (sd.map Prod.fst).Nodup) : ((bump sd k w).map Prod.fst).Nodup := by
  rw [bump_keys]
  by_cases hm : k ∈ sd.map Prod.fst
  · simpa [hm] using h
  · simp only [hm, if_false]
    exact h.append (List.nodup_singleton k)
      (fun a ha hak => hm (by rwa [List.mem_singleton.mp hak] at ha))

theorem sectorAccum_cons (f : String → String) (T : ℚ) (pos : PositionValuation)
    (ps : List PositionValuation) (sd : List (String × ℚ)) :
    sectorAccum f T (pos :: ps) sd =
      sectorAccum f T ps (bump sd (f pos.ticker) (pos.current_value / T)) := rfl

theorem sectorAccum_nodup (f : String → String) (T : ℚ) (ps : List PositionValuation) :
    ∀ sd, (sd.map Prod.fst).Nodup → ((sectorAccum f T ps sd).map Prod.fst).Nodup := by
  induction ps with
  | nil => exact fun sd h => h
  | cons pos ps ih => exact fun sd h => ih _ (bump_nodup sd _ _ h)

theorem lookupW_sectorAccum (f : String → String) (T : ℚ) (ps : List PositionValuation) :
    ∀ (sd : List (String × ℚ)) (k : String),
      lookupW (sectorAccum f T ps sd) k =
        lookupW sd k +
          ((ps.filter fun pos => f pos.ticker = k).map
            fun pos => pos.current_value / T).sum := by
  induction ps with
  | nil => intro sd k; simp [sectorAccum]
  | cons pos ps ih =>
      intro sd k
      rw [sectorAccum_cons, ih]
      rcases eq_or_ne (f pos.ticker) k with hk | hk
      · rw [hk, lookupW_bump_self, List.filter_cons_of_pos (by simp [hk]),
          List.map_cons, List.sum_cons]
        ring
      · rw [lookupW_bump_ne _ _ _ _ hk, List.filter_cons_of_neg (by simp [hk])]

theorem snd_sum_sectorAccum (f : String → String) (T : ℚ) (ps : List PositionValuation) :
    ∀ sd, ((sectorAccum f T ps sd).map Prod.snd).sum =
      (sd.map Prod.snd).sum + (ps.map fun pos => pos.current_value / T).sum := by
  induction ps with
  | nil => intro sd; simp [sectorAccum]
  | cons pos ps ih =>
      intro sd
      rw [sectorAccum_cons, ih, snd_sum_bump, List.map_cons, List.sum_cons]
      ring

theorem entry_eq_lookupW (sd : List (String × ℚ)) (h : (sd.map Prod.fst).Nodup) :
    ∀ e ∈ sd, e.2 = lookupW sd e.1 := by
  induction sd with
  | nil => intro e he; cases he
  | cons a rest ih =>
      obtain ⟨k, w⟩ := a
      have h' : k ∉ rest.map Prod.fst ∧ (rest.map Prod.fst).Nodup :=
        List.nodup_cons.mp (by simpa using h)
      intro e he
      rcases List.mem_cons.mp he with rfl | he'
      · simp [lookupW]
      · have hne : k ≠ e.1 :=
          fun hkk => h'.1 (hkk ▸ List.mem_map_of_mem Prod.fst he')
        simp only [lookupW, if_neg hne]
        exact ih h'.2 e he'

theorem sum_map_div (l : List ℚ) (T : ℚ) : (l.map fun x => x / T).sum = l.sum / T := by
  induction l with
  | nil => simp
  | cons x xs ih => simp [ih, add_div]

theorem sum_map_mul (l : List ℚ) (c : ℚ) : (l.map fun x => x * c).sum = l.sum * c := by
  induction l with
  | nil => simp
  | cons x xs ih => simp [ih, add_mul]

/-- C9: with at least one position and a positive total value, the
allocation aggregator pairs each sector label (labels are pairwise
distinct, i.e. positions sharing a sector are merged into one bucket) with
the weight `Σ current_value of that sector / total_value * 100`, and the
weights sum to 100. -/
theorem sector_allocation_spec (sectorOf : String → String)
    (positions : List PositionValuation) (hne : positions ≠ [])
    (hT : 0 < (positions.map PositionValuation.current_value).sum) :
    (calculate_sector_allocation sectorOf positions).1.Nodup ∧
    (∀ sw ∈ (calculate_sector_allocation sectorOf positions).1.zip
        (calculate_sector_allocation sectorOf positions).2,
      sw.2 = ((positions.filter fun pos => sectorOf pos.ticker = sw.1).map
          PositionValuation.current_value).sum /
        (positions.map PositionValuation.current_value).sum * 100) ∧
    (calculate_sector_allocation sectorOf positions).2.sum = 100 := by
  set T := (positions.map PositionValuation.current_value).sum with hTdef
  set sd := sectorAccum sectorOf T positions [] with hsddef
  have hres : calculate_sector_allocation sectorOf positions =
      (sd.map Prod.fst, sd.map fun e => e.2 * 100) := by
    rw [calculate_sector_allocation, if_neg hne]
  have hnd : (sd.map Prod.fst).Nodup :=
    sectorAccum_nodup sectorOf T positions [] (by simp)
  refine ⟨?_, ?_, ?_⟩
  · rw [hres]; exact hnd
  · intro sw hsw
    rw [hres] at hsw
    simp only at hsw
    rw [List.zip_map'] at hsw
    obtain ⟨e, he, rfl⟩ := List.mem_map.mp hsw
    have h1 : e.2 = lookupW sd e.1 := entry_eq_lookupW sd hnd e he
    have h2 : lookupW sd e.1 =
        ((positions.filter fun pos => sectorOf pos.ticker = e.1).map
          fun pos => pos.current_value / T).sum := by
      have h3 := lookupW_sectorAccum sectorOf T positions [] e.1
      rw [← hsddef] at h3
      simpa [lookupW] using h3
    show e.2 * 100 = _
    rw [h1, h2, show ((positions.filter fun pos => sectorOf pos.ticker = e.1).map
        fun pos => pos.current_value / T) =
      (((positions.filter fun pos => sectorOf pos.ticker = e.1).map
        PositionValuation.current_value).map fun x => x / T) from by
          rw [List.map_map]; rfl, sum_map_div]
  · rw [hres]
    simp only
    rw [show (sd.map fun e => e.2 * 100) = ((sd.map Prod.snd).map fun x => x * 100) from by
        rw [List.map_map]; rfl, sum_map_mul]
    have h4 := snd_sum_sectorAccum sectorOf T positions []
    rw [← hsddef] at h4
    rw [h4, show ((positions.map fun pos => pos.current_value / T)) =
        ((positions.map PositionValuation.current_value).map fun x => x / T) from by
          rw [List.map_map]; rfl, sum_map_div, ← hTdef, div_self (ne_of_gt hT)]
    norm_num

theorem sector_allocation_spec_witness :
    posListW ≠ [] ∧ 0 < (posListW.map PositionValuation.current_value).sum ∧
    (calculate_sector_allocation sectorOfW posListW).1.Nodup ∧
    (∀ sw ∈ (calculate_sector_allocation sectorOfW posListW).1.zip
        (calculate_sector_allocation sectorOfW posListW).2,
      sw.2 = ((posListW.filter fun pos => sectorOfW pos.ticker = sw.1).map
          PositionValuation.current_value).sum /
        (posListW.map PositionValuation.current_value).sum * 100) ∧
    (calculate_sector_allocation sectorOfW posListW).2.sum = 100 := by
  have h1 : posListW ≠ [] := by simp [posListW]
  have h2 : 0 < (posListW.map PositionValuation.current_value).sum := by
    norm_num [posListW]
  obtain ⟨a, b, c⟩ := sector_allocation_spec sectorOfW posListW h1 h2
  exact ⟨h1, h2, a, b, c⟩

/-- C10: when the stock-holdings dict is empty, `get_portfolio_returns`
returns `None` before ever looking at the mutual-fund holdings, whatever
the rest of the pipeline would do, and `calculate_portfolio_metrics`
consequently returns the all-zero metrics dict. -/
theorem empty_holdings_returns_none (body : Portfolio → String → Option (List ℚ))
    (mbody : List ℚ → PortfolioMetrics) (p : Portfolio) (period : String)
    (h : p.holdings = []) :
    get_portfolio_returns body p period = none ∧
    calculate_portfolio_metrics body mbody p period = ⟨0, 0, 0, 0⟩ := by
  have h1 : get_portfolio_returns body p period = none := by
    rw [get_portfolio_returns, if_pos h]
  exact ⟨h1, by rw [calculate_portfolio_metrics, h1]⟩

theorem empty_holdings_returns_none_witness :
    pFundOnly.holdings = [] ∧ pFundOnly.mutual_funds ≠ [] ∧
    get_portfolio_returns bodyW pFundOnly "1y" = none ∧
    calculate_portfolio_metrics bodyW mbodyW pFundOnly "1y" = ⟨0, 0, 0, 0⟩ := by
  have h : pFundOnly.holdings = [] := by decide
  obtain ⟨h1, h2⟩ := empty_holdings_returns_none bodyW mbodyW pFundOnly "1y" h
  exact ⟨h, by decide, h1, h2⟩

/-- C8 counter-evidence: in the per-fund simulation step, two consecutive
invocations with the same fund code produce different daily-return lists,
because `np.random.normal` reads NumPy's global stream (advancing `npPos`)
and `random.seed(hash(fund_code))` only resets the unused stdlib state —
the run is not reproducible from the fund code alone. The numpy stream is
instantiated with the position-indexed stream `i ↦ i`. -/
theorem fund_simulation_not_reproducible :
    ∃ (npNormal : ℕ → ℚ) (hashOf : String → ℤ) (w : RngWorld) (code : String) (n : ℕ),
      (simulate_fund_returns npNormal hashOf w code n).1 ≠
        (simulate_fund_returns npNormal hashOf
          (simulate_fund_returns npNormal hashOf w code n).2 code n).1 := by
  refine ⟨fun i => (i : ℚ), fun _ => 0, ⟨0, 0⟩, "INF179K01BB8", 1, ?_⟩
  simp [simulate_fund_returns, List.range_succ]

end IndiaQuant
